import Mathlib

/-!
# Cold-Chain Pharma Logistics — route-optimization core, verified model

Shallow embedding of `src/optim.py`: the distance-matrix builder
`create_distance_matrix`, the route optimizer `optimize_route` (whose tour
construction the source delegates to an external solver's PATH_CHEAPEST_ARC
first-solution strategy; it is modelled here from the specification's explicit
cheapest-arc greedy construction), and the two scenario mutators
`simulate_heatwave` / `simulate_delays`.

Conventions of the embedding:
* Python floats are modelled as `ℚ`; `int(x)` (truncation toward zero) is
  `pyInt`.
* The external geodesic distance function (`geopy.distance.geodesic(..).km`)
  is not part of the repository; it is passed as an explicit parameter
  `dist : ℚ × ℚ → ℚ × ℚ → ℚ`, and the properties the specification asserts of
  it (symmetry, zero self-distance, non-negativity) appear as hypotheses.
* Out-of-range list indexing is total via `List.getD`; the Python code only
  ever indexes in range.
-/

/-- A delivery stop record, as generated into `locations.csv`:
`id`, `lat`, `lon`, `temperature_c`, `vibration_level`. -/
structure Stop where
  id : ℤ
  lat : ℚ
  lon : ℚ
  temperature_c : ℚ
  vibration_level : ℚ
deriving DecidableEq

/-- Default record used to totalize list indexing (never reached in range). -/
def dStop : Stop := ⟨0, 0, 0, 0, 0⟩

/-- The coordinate pair `(lat, lon)` of a stop — the only fields the
routing core ever reads. -/
def stopCoord (s : Stop) : ℚ × ℚ := (s.lat, s.lon)

/-- `create_distance_matrix(locations)` from `src/optim.py` lines 28–42:
for `i in range(n)`, for `j in range(n)`, entry `[i][j]` is the geodesic
distance between the coordinates of location `i` and location `j`.
The external `geodesic(..).km` call is the parameter `dist`. -/
def create_distance_matrix (dist : ℚ × ℚ → ℚ × ℚ → ℚ) (locations : List Stop) :
    List (List ℚ) :=
  (List.range locations.length).map fun i =>
    (List.range locations.length).map fun j =>
      dist (stopCoord (locations.getD i dStop)) (stopCoord (locations.getD j dStop))

/-- Total lookup `matrix[i][j]` with default `0`. -/
def matrixGet (m : List (List ℚ)) (i j : ℕ) : ℚ :=
  (m.getD i []).getD j 0

/-- Python's `int(x)`: truncation toward zero (floor for non-negative `x`,
ceiling for negative `x`). -/
def pyInt (x : ℚ) : ℤ :=
  if 0 ≤ x then ⌊x⌋ else ⌈x⌉

/-- `distance_callback` from `src/optim.py` lines 59–60: the integer arc cost
the solver uses, `int(distance_matrix[i][j] * 1000)`. -/
def distance_callback (dm : List (List ℚ)) (i j : ℕ) : ℤ :=
  pyInt (matrixGet dm i j * 1000)

/-- `simulate_heatwave()` from `src/optim.py` lines 88–95: adds 10 to every
record's `temperature_c`, leaving all other fields unchanged. -/
def simulate_heatwave (stops : List Stop) : List Stop :=
  stops.map fun s => { s with temperature_c := s.temperature_c + 10 }

/-- `simulate_delays()` from `src/optim.py` lines 97–104: adds 0.5 to every
record's `vibration_level`, leaving all other fields unchanged. -/
def simulate_delays (stops : List Stop) : List Stop :=
  stops.map fun s => { s with vibration_level := s.vibration_level + 1/2 }

/-! ## The cheapest-arc greedy construction

Modelled from the spec: the source delegates tour construction to the
OR-Tools `PATH_CHEAPEST_ARC` first-solution strategy (external library code,
not in this repository).  The specification §4.2 prescribes the explicit
heuristic an implementation must use: repeatedly select the globally cheapest
unused arc joinable to the current set of directed path fragments without
creating a premature cycle or a node of in/out-degree above one, until all
nodes form a single path; arcs tie-break in ascending (from-node, to-node)
order; finally close the path into a cycle and read the tour off starting at
the depot (index 0). -/

/-- Lexicographic comparison on (cost, from-node, to-node): the spec's
deterministic selection order — lowest cost first, ties by ascending
(from, to). -/
def keyLt (k₁ k₂ : ℤ × ℕ × ℕ) : Bool :=
  decide (k₁.1 < k₂.1) ||
    (k₁.1 == k₂.1 &&
      (decide (k₁.2.1 < k₂.2.1) ||
        (k₁.2.1 == k₂.2.1 && decide (k₁.2.2 < k₂.2.2))))

/-- Select the element of the list with the least key, keeping the earliest
on ties; `none` on the empty list. -/
def pickBest (key : ℕ × ℕ → ℤ × ℕ × ℕ) : List (ℕ × ℕ) → Option (ℕ × ℕ)
  | [] => none
  | x :: xs => some (xs.foldl (fun best y => if keyLt (key y) (key best) then y else best) x)

/-- All ordered pairs `(a, b)` of distinct fragment positions below `k`:
joining fragment `a`'s tail to fragment `b`'s head never closes a premature
cycle and respects the degree constraints. -/
def candidatePairs (k : ℕ) : List (ℕ × ℕ) :=
  (List.range k).flatMap fun a =>
    ((List.range k).filter fun b => a != b).map fun b => (a, b)

/-- The key of the arc realized by joining fragment `p.1`'s tail node to
fragment `p.2`'s head node: its cost, then the arc's (from, to) node pair for
the deterministic tie-break. -/
def arcKey (c : ℕ → ℕ → ℤ) (frags : List (List ℕ)) (p : ℕ × ℕ) : ℤ × ℕ × ℕ :=
  let f := (frags.getD p.1 []).getLastD 0
  let t := (frags.getD p.2 []).headD 0
  (c f t, f, t)

/-- Choose the pair of fragments realizing the globally cheapest feasible arc
(ties broken by ascending (from, to) node order). -/
def chooseMerge (c : ℕ → ℕ → ℤ) (frags : List (List ℕ)) : Option (ℕ × ℕ) :=
  pickBest (arcKey c frags) (candidatePairs frags.length)

/-- Remove the entries at two distinct positions. -/
def removeTwo (l : List (List ℕ)) (a b : ℕ) : List (List ℕ) :=
  if a < b then (l.eraseIdx b).eraseIdx a else (l.eraseIdx a).eraseIdx b

/-- Join fragment `b` onto the tail of fragment `a`, removing both from the
fragment list. -/
def mergeAt (frags : List (List ℕ)) (a b : ℕ) : List (List ℕ) :=
  (frags.getD a [] ++ frags.getD b []) :: removeTwo frags a b

/-- One singleton path fragment per node. -/
def initFrags (n : ℕ) : List (List ℕ) :=
  (List.range n).map fun i => [i]

/-- The greedy loop: while a feasible cheapest arc exists, merge the two
fragments it joins.  `fuel` bounds the number of merges (exactly `n - 1` are
needed to connect `n` singleton fragments). -/
def greedy (c : ℕ → ℕ → ℤ) : ℕ → List (List ℕ) → List (List ℕ)
  | 0, frags => frags
  | fuel + 1, frags =>
    match chooseMerge c frags with
    | none => frags
    | some (a, b) => greedy c fuel (mergeAt frags a b)

/-- Rotate a closed-up path so that it starts at the depot (node 0). -/
def rotateToDepot (p : List ℕ) : List ℕ :=
  p.drop (p.indexOf 0) ++ p.take (p.indexOf 0)

/-- A distance matrix is square when every row's length equals the number of
rows. -/
def isSquare (dm : List (List ℚ)) : Bool :=
  dm.all fun row => row.length == dm.length

/-- `optimize_route()` from `src/optim.py` lines 45–85, on an in-memory
distance matrix.  Malformed input (empty, non-square or ragged matrix) is
rejected up front with `none`; otherwise the cheapest-arc construction runs
(modelled from the spec, see above), and the tour is extracted starting and
ending at the depot.  `none` is the "No solution found." outcome; a partial
tour is never returned. -/
def optimize_route (dm : List (List ℚ)) : Option (List ℕ) :=
  if dm.length = 0 ∨ isSquare dm = false then none
  else
    match greedy (distance_callback dm) (dm.length - 1) (initFrags dm.length) with
    | [p] => some (rotateToDepot p ++ [0])
    | _ => none

/-- The full pipeline of one optimization run: build the distance matrix from
the stop records, then optimize (lines 50–52 of `src/optim.py`). -/
def run_optimization (dist : ℚ × ℚ → ℚ × ℚ → ℚ) (stops : List Stop) :
    Option (List ℕ) :=
  optimize_route (create_distance_matrix dist stops)

/-- Total cost of a tour under an integer arc-cost function: the sum of the
costs of its consecutive arcs. -/
def tourCost (c : ℕ → ℕ → ℤ) : List ℕ → ℤ
  | [] => 0
  | [_] => 0
  | i :: j :: rest => c i j + tourCost c (j :: rest)

/-! ## Matrix-entry lemmas -/

/-- `getD` through a map over `List.range`. -/
lemma getD_map_range {α : Type} (f : ℕ → α) (n i : ℕ) (d : α) :
    ((List.range n).map f).getD i d = if i < n then f i else d := by
  by_cases h : i < n
  · simp [List.getD_eq_getElem?_getD, List.getElem?_range h, h]
  · have hnone : (List.range n)[i]? = none :=
      List.getElem?_eq_none (by simpa using Nat.le_of_not_lt h)
    simp [List.getD_eq_getElem?_getD, hnone, h]

/-- Closed form of an entry of the distance matrix: the pairwise distance in
range, the default `0` out of range. -/
lemma create_distance_matrix_entry (dist : ℚ × ℚ → ℚ × ℚ → ℚ) (locs : List Stop)
    (i j : ℕ) :
    matrixGet (create_distance_matrix dist locs) i j =
      if i < locs.length ∧ j < locs.length then
        dist (stopCoord (locs.getD i dStop)) (stopCoord (locs.getD j dStop))
      else 0 := by
  unfold matrixGet create_distance_matrix
  rw [getD_map_range]
  by_cases hi : i < locs.length
  · rw [if_pos hi, getD_map_range]
    by_cases hj : j < locs.length
    · simp [hi, hj]
    · simp [hi, hj]
  · rw [if_neg hi]
    simp [hi]

/-- The distance matrix has one row per location. -/
lemma create_distance_matrix_length (dist : ℚ × ℚ → ℚ × ℚ → ℚ) (locs : List Stop) :
    (create_distance_matrix dist locs).length = locs.length := by
  simp [create_distance_matrix]

/-! ## Claims C4, C5, C10 — distance-matrix invariants -/

/-- C4: the matrix produced by `create_distance_matrix` is symmetric — for
every list of stops and every pair of indices `i, j`,
`matrix[i][j] == matrix[j][i]`; the distance collaborator is symmetric, as
the specification asserts of the geodesic metric. -/
theorem create_distance_matrix_symm (dist : ℚ × ℚ → ℚ × ℚ → ℚ) (locs : List Stop)
    (hsym : ∀ p q, dist p q = dist q p) (i j : ℕ) :
    matrixGet (create_distance_matrix dist locs) i j =
      matrixGet (create_distance_matrix dist locs) j i := by
  rw [create_distance_matrix_entry, create_distance_matrix_entry]
  by_cases hi : i < locs.length <;> by_cases hj : j < locs.length <;>
    simp [hi, hj, hsym]

/-- Witness for C4 at a concrete symmetric distance function, stop list and
index pair. -/
theorem create_distance_matrix_symm_witness :
    matrixGet (create_distance_matrix
        (fun p q => (p.1 - q.1) * (p.1 - q.1) + (p.2 - q.2) * (p.2 - q.2))
        [⟨0, 1, 2, 5, 0⟩, ⟨1, 3, 7, 6, 0⟩]) 0 1 =
      matrixGet (create_distance_matrix
        (fun p q => (p.1 - q.1) * (p.1 - q.1) + (p.2 - q.2) * (p.2 - q.2))
        [⟨0, 1, 2, 5, 0⟩, ⟨1, 3, 7, 6, 0⟩]) 1 0 :=
  create_distance_matrix_symm _ _ (by intro p q; ring) 0 1

/-- C5: the matrix produced by `create_distance_matrix` has a zero diagonal —
`matrix[i][i] == 0` for every index `i`; the distance collaborator has zero
self-distance, as the specification asserts of the geodesic metric. -/
theorem create_distance_matrix_diag_zero (dist : ℚ × ℚ → ℚ × ℚ → ℚ)
    (locs : List Stop) (hzero : ∀ p, dist p p = 0) (i : ℕ) :
    matrixGet (create_distance_matrix dist locs) i i = 0 := by
  rw [create_distance_matrix_entry]
  by_cases hi : i < locs.length <;> simp [hi, hzero]

/-- Witness for C5 at a concrete distance function with zero self-distance. -/
theorem create_distance_matrix_diag_zero_witness :
    matrixGet (create_distance_matrix
        (fun p q => (p.1 - q.1) * (p.1 - q.1) + (p.2 - q.2) * (p.2 - q.2))
        [⟨0, 1, 2, 5, 0⟩, ⟨1, 3, 7, 6, 0⟩]) 1 1 = 0 :=
  create_distance_matrix_diag_zero _ _ (by intro p; simp) 1

/-- C10: for every input list of `n` location records (including `n = 0`),
`create_distance_matrix` returns a square matrix with exactly `n` rows, each
of length `n`, with every entry non-negative (the distance collaborator being
non-negative); for the empty list it returns the empty matrix. -/
theorem create_distance_matrix_shape (dist : ℚ × ℚ → ℚ × ℚ → ℚ) (locs : List Stop)
    (hnn : ∀ p q, 0 ≤ dist p q) :
    (create_distance_matrix dist locs).length = locs.length ∧
    (∀ row ∈ create_distance_matrix dist locs, row.length = locs.length) ∧
    (∀ i j, 0 ≤ matrixGet (create_distance_matrix dist locs) i j) ∧
    create_distance_matrix dist [] = [] := by
  refine ⟨create_distance_matrix_length dist locs, ?_, ?_, by simp [create_distance_matrix]⟩
  · intro row hrow
    unfold create_distance_matrix at hrow
    obtain ⟨i, _, rfl⟩ := List.mem_map.mp hrow
    simp
  · intro i j
    rw [create_distance_matrix_entry]
    by_cases h : i < locs.length ∧ j < locs.length
    · rw [if_pos h]; exact hnn _ _
    · rw [if_neg h]

/-- Witness for C10 at a concrete non-negative distance function. -/
theorem create_distance_matrix_shape_witness :
    (create_distance_matrix
        (fun p q => (p.1 - q.1) * (p.1 - q.1) + (p.2 - q.2) * (p.2 - q.2))
        [⟨0, 1, 2, 5, 0⟩, ⟨1, 3, 7, 6, 0⟩]).length = 2 ∧
    (∀ row ∈ create_distance_matrix
        (fun p q => (p.1 - q.1) * (p.1 - q.1) + (p.2 - q.2) * (p.2 - q.2))
        [⟨0, 1, 2, 5, 0⟩, ⟨1, 3, 7, 6, 0⟩], row.length = 2) ∧
    (∀ i j, 0 ≤ matrixGet (create_distance_matrix
        (fun p q => (p.1 - q.1) * (p.1 - q.1) + (p.2 - q.2) * (p.2 - q.2))
        [⟨0, 1, 2, 5, 0⟩, ⟨1, 3, 7, 6, 0⟩]) i j) ∧
    create_distance_matrix
        (fun p q => (p.1 - q.1) * (p.1 - q.1) + (p.2 - q.2) * (p.2 - q.2)) [] = [] :=
  create_distance_matrix_shape _ _
    (by intro p q; exact add_nonneg (mul_self_nonneg _) (mul_self_nonneg _))

/-! ## Claim C2 — the integer arc cost -/

set_option maxRecDepth 10000 in
unseal Rat.mul Rat.inv Rat.add Rat.sub in
/-- C2 as stated is false: the arc cost is `int(matrix[i][j] * 1000)` —
Python truncation toward zero — not rounding to the nearest integer.  At the
matrix entry `3/2000` (kilometres) the scaled value is `3/2`: the code's cost
is `1`, while rounding to nearest would give `2`. -/
theorem distance_callback_ne_round :
    ¬ (distance_callback [[0, 3/2000], [3/2000, 0]] 0 1 =
        round (matrixGet [[0, 3/2000], [3/2000, 0]] 0 1 * 1000)) := by
  decide

/-- C2 amended: the integer arc cost the optimizer uses equals the distance
matrix entry multiplied by 1000 and truncated toward zero, which for the
non-negative distances produced here is the floor. -/
theorem distance_callback_eq_floor (dm : List (List ℚ)) (i j : ℕ)
    (h : 0 ≤ matrixGet dm i j) :
    distance_callback dm i j = ⌊matrixGet dm i j * 1000⌋ := by
  unfold distance_callback pyInt
  rw [if_pos (mul_nonneg h (by norm_num))]

set_option maxRecDepth 10000 in
unseal Rat.mul Rat.inv Rat.add Rat.sub in
/-- Witness for the amended C2 at the same concrete matrix entry. -/
theorem distance_callback_eq_floor_witness :
    0 ≤ matrixGet [[0, 3/2000], [3/2000, 0]] 0 1 ∧
    distance_callback [[0, 3/2000], [3/2000, 0]] 0 1 =
      ⌊matrixGet [[0, 3/2000], [3/2000, 0]] 0 1 * 1000⌋ :=
  ⟨by decide, distance_callback_eq_floor _ 0 1 (by decide)⟩

/-! ## Claim C6 — scenario mutators are coordinate-orthogonal -/

/-- The distance matrix only depends on the coordinates, so any per-stop map
preserving `lat`/`lon` leaves it unchanged. -/
lemma create_distance_matrix_map_coord (dist : ℚ × ℚ → ℚ × ℚ → ℚ)
    (stops : List Stop) (g : Stop → Stop)
    (hg : ∀ s, stopCoord (g s) = stopCoord s) :
    create_distance_matrix dist (stops.map g) = create_distance_matrix dist stops := by
  unfold create_distance_matrix
  rw [List.length_map]
  apply List.map_congr_left
  intro i hi
  apply List.map_congr_left
  intro j hj
  rw [List.mem_range] at hi hj
  have hgd : ∀ k, k < stops.length → (stops.map g).getD k dStop = g (stops.getD k dStop) := by
    intro k hk
    simp [List.getD_eq_getElem?_getD, List.getElem?_eq_getElem, hk,
      List.getElem?_map, List.getElem_map]
  rw [hgd i hi, hgd j hj, hg, hg]

/-- C6: the heatwave and delay mutators change only the temperature resp.
vibration field — every stop's `lat` and `lon` (indeed everything except the
mutated field) is unchanged — hence the distance matrix computed afterwards,
and therefore the tour, are identical to those computed before the
mutation. -/
theorem scenario_mutators_coordinate_invariant (dist : ℚ × ℚ → ℚ × ℚ → ℚ)
    (stops : List Stop) :
    (simulate_heatwave stops).map (fun s => (s.id, s.lat, s.lon, s.vibration_level)) =
      stops.map (fun s => (s.id, s.lat, s.lon, s.vibration_level)) ∧
    (simulate_delays stops).map (fun s => (s.id, s.lat, s.lon, s.temperature_c)) =
      stops.map (fun s => (s.id, s.lat, s.lon, s.temperature_c)) ∧
    create_distance_matrix dist (simulate_heatwave stops) =
      create_distance_matrix dist stops ∧
    create_distance_matrix dist (simulate_delays stops) =
      create_distance_matrix dist stops ∧
    run_optimization dist (simulate_heatwave stops) = run_optimization dist stops ∧
    run_optimization dist (simulate_delays stops) = run_optimization dist stops := by
  have hheat : create_distance_matrix dist (simulate_heatwave stops) =
      create_distance_matrix dist stops :=
    create_distance_matrix_map_coord dist stops _ (fun s => rfl)
  have hdelay : create_distance_matrix dist (simulate_delays stops) =
      create_distance_matrix dist stops :=
    create_distance_matrix_map_coord dist stops _ (fun s => rfl)
  refine ⟨?_, ?_, hheat, hdelay, ?_, ?_⟩
  · simp [simulate_heatwave, List.map_map, Function.comp]
  · simp [simulate_delays, List.map_map, Function.comp]
  · unfold run_optimization; rw [hheat]
  · unfold run_optimization; rw [hdelay]

/-! ## Claim C8 — malformed input is rejected up front -/

/-- C8: an input with `N = 0` stops (empty matrix) or a non-square/ragged
distance matrix is rejected before tour construction begins: `optimize_route`
returns `none` and no partial result. -/
theorem malformed_input_rejected (dm : List (List ℚ))
    (h : dm.length = 0 ∨ isSquare dm = false) :
    optimize_route dm = none := by
  unfold optimize_route
  rw [if_pos h]

/-- Witness for C8: the empty matrix (`N = 0`) and a ragged matrix are both
rejected. -/
theorem malformed_input_rejected_witness :
    ((([] : List (List ℚ)).length = 0 ∨ isSquare [] = false) ∧
      optimize_route [] = none) ∧
    (([[0, 1], [2]] : List (List ℚ)).length = 0 ∨ isSquare [[0, 1], [2]] = false) ∧
      optimize_route [[0, 1], [2]] = none :=
  ⟨⟨by decide, malformed_input_rejected [] (by decide)⟩,
   by decide, malformed_input_rejected [[0, 1], [2]] (by decide)⟩

/-! ## Claim C3 — determinism -/

/-- The distance matrix depends only on the coordinate projection of the stop
list: two stop lists with identical coordinates yield identical matrices. -/
lemma create_distance_matrix_coord_eq (dist : ℚ × ℚ → ℚ × ℚ → ℚ)
    (stops₁ stops₂ : List Stop)
    (h : stops₁.map stopCoord = stops₂.map stopCoord) :
    create_distance_matrix dist stops₁ = create_distance_matrix dist stops₂ := by
  have hlen : stops₁.length = stops₂.length := by
    have hl := congrArg List.length h
    simpa using hl
  have hco : ∀ i, i < stops₁.length →
      stopCoord (stops₁.getD i dStop) = stopCoord (stops₂.getD i dStop) := by
    intro i hi
    have hi₂ : i < stops₂.length := hlen ▸ hi
    have h1 : (stops₁.map stopCoord).getD i (stopCoord dStop) =
        stopCoord (stops₁.getD i dStop) := by
      simp [List.getD_eq_getElem?_getD, List.getElem?_eq_getElem, hi]
    have h2 : (stops₂.map stopCoord).getD i (stopCoord dStop) =
        stopCoord (stops₂.getD i dStop) := by
      simp [List.getD_eq_getElem?_getD, List.getElem?_eq_getElem, hi₂]
    rw [← h1, ← h2, h]
  unfold create_distance_matrix
  rw [← hlen]
  apply List.map_congr_left
  intro i hi
  apply List.map_congr_left
  intro j hj
  rw [List.mem_range] at hi hj
  rw [hco i hi, hco j hj]

/-- C3: the optimizer is deterministic — two invocations of the optimization
pipeline on merely identical coordinates (hence identical distance matrices)
produce the identical tour, whatever the telemetry fields hold.  The modelled
cheapest-arc construction breaks ties by the fixed ascending (from, to)
order, so the whole pipeline is a pure function of the coordinates. -/
theorem optimizer_deterministic (dist : ℚ × ℚ → ℚ × ℚ → ℚ)
    (stops₁ stops₂ : List Stop)
    (h : stops₁.map stopCoord = stops₂.map stopCoord) :
    run_optimization dist stops₁ = run_optimization dist stops₂ := by
  unfold run_optimization
  rw [create_distance_matrix_coord_eq dist stops₁ stops₂ h]

/-- Witness for C3: two concrete stop lists sharing coordinates but differing
in temperature and vibration (the heatwave/delay rerun situation) get the
same tour. -/
theorem optimizer_deterministic_witness :
    ([⟨0, 1, 2, 5, 0⟩, ⟨1, 3, 7, 6, 0⟩] : List Stop).map stopCoord =
      ([⟨0, 1, 2, 15, 1/2⟩, ⟨1, 3, 7, 16, 1/2⟩] : List Stop).map stopCoord ∧
    run_optimization (fun p q => (p.1 - q.1) * (p.1 - q.1))
        [⟨0, 1, 2, 5, 0⟩, ⟨1, 3, 7, 6, 0⟩] =
      run_optimization (fun p q => (p.1 - q.1) * (p.1 - q.1))
        [⟨0, 1, 2, 15, 1/2⟩, ⟨1, 3, 7, 16, 1/2⟩] :=
  ⟨rfl, optimizer_deterministic _ _ _ rfl⟩

/-! ## Greedy-construction machinery: the result is a single fragment whose
nodes are a permutation of `range n` -/

/-- The fold used by `pickBest` only ever returns one of the listed pairs. -/
lemma pickBest_foldl_mem (key : ℕ × ℕ → ℤ × ℕ × ℕ) (xs : List (ℕ × ℕ)) :
    ∀ x : ℕ × ℕ,
      xs.foldl (fun best y => if keyLt (key y) (key best) then y else best) x ∈
        x :: xs := by
  induction xs with
  | nil => intro x; simp
  | cons y ys ih =>
    intro x
    rw [List.foldl_cons]
    by_cases hk : keyLt (key y) (key x)
    · rw [if_pos hk]
      rcases List.mem_cons.mp (ih y) with h | h
      · rw [h]; simp
      · simp [h]
    · rw [if_neg hk]
      rcases List.mem_cons.mp (ih x) with h | h
      · rw [h]; simp
      · simp [h]

/-- `pickBest` returns a member of its candidate list. -/
lemma pickBest_mem (key : ℕ × ℕ → ℤ × ℕ × ℕ) (l : List (ℕ × ℕ)) (p : ℕ × ℕ)
    (h : pickBest key l = some p) : p ∈ l := by
  cases l with
  | nil => cases h
  | cons x xs =>
    unfold pickBest at h
    injection h with h
    exact h ▸ pickBest_foldl_mem key xs x

/-- Membership in the candidate list characterizes the feasible pairs. -/
lemma mem_candidatePairs {k a b : ℕ} :
    (a, b) ∈ candidatePairs k ↔ a < k ∧ b < k ∧ a ≠ b := by
  unfold candidatePairs
  simp only [List.mem_flatMap, List.mem_map, List.mem_filter, List.mem_range]
  constructor
  · rintro ⟨a', ha', b', ⟨hb', hne⟩, heq⟩
    obtain ⟨rfl, rfl⟩ := Prod.mk.injEq .. ▸ heq
    exact ⟨ha', hb', by simpa using hne⟩
  · rintro ⟨ha, hb, hne⟩
    exact ⟨a, ha, b, ⟨hb, by simpa using hne⟩, rfl⟩

/-- With at least two fragments a feasible cheapest arc always exists (the
cost graph is complete). -/
lemma chooseMerge_isSome (c : ℕ → ℕ → ℤ) (frags : List (List ℕ))
    (h2 : 2 ≤ frags.length) :
    ∃ p, chooseMerge c frags = some p := by
  unfold chooseMerge
  have hmem : ((0, 1) : ℕ × ℕ) ∈ candidatePairs frags.length :=
    mem_candidatePairs.mpr ⟨by omega, by omega, by omega⟩
  cases hcp : candidatePairs frags.length with
  | nil => rw [hcp] at hmem; cases hmem
  | cons x xs => exact ⟨_, rfl⟩

/-- The chosen pair denotes two distinct in-range fragments. -/
lemma chooseMerge_bounds (c : ℕ → ℕ → ℤ) (frags : List (List ℕ)) (a b : ℕ)
    (h : chooseMerge c frags = some (a, b)) :
    a < frags.length ∧ b < frags.length ∧ a ≠ b :=
  mem_candidatePairs.mp (pickBest_mem _ _ _ h)

/-- Erasing at a later position preserves earlier entries. -/
lemma getD_eraseIdx_of_lt (l : List (List ℕ)) (i j : ℕ) (hij : i < j) :
    (l.eraseIdx j).getD i [] = l.getD i [] := by
  simp [List.getD_eq_getElem?_getD, List.getElem?_eraseIdx_of_lt l j i hij]

/-- Flattening splits off any one entry, up to permutation. -/
lemma flatten_perm_getD_eraseIdx (l : List (List ℕ)) :
    ∀ i : ℕ, i < l.length →
      l.flatten.Perm (l.getD i [] ++ (l.eraseIdx i).flatten) := by
  induction l with
  | nil => intro i h; simp at h
  | cons x xs ih =>
    intro i hi
    cases i with
    | zero => simp
    | succ i =>
      have hi' : i < xs.length := by simpa using hi
      have step := (ih i hi').append_left x
      simp only [List.flatten_cons, List.eraseIdx_cons_succ, List.getD_cons_succ]
      refine step.trans ?_
      rw [← List.append_assoc, ← List.append_assoc]
      exact List.perm_append_comm.append_right _

/-- Merging two distinct fragments preserves the multiset of nodes. -/
lemma flatten_perm_mergeAt (l : List (List ℕ)) (a b : ℕ)
    (ha : a < l.length) (hb : b < l.length) (hab : a ≠ b) :
    (mergeAt l a b).flatten.Perm l.flatten := by
  unfold mergeAt removeTwo
  rcases Nat.lt_or_ge a b with h | h
  · rw [if_pos h]
    have h1 := flatten_perm_getD_eraseIdx l b hb
    have ha' : a < (l.eraseIdx b).length := by
      rw [List.length_eraseIdx_of_lt hb]; omega
    have h2 := flatten_perm_getD_eraseIdx (l.eraseIdx b) a ha'
    rw [getD_eraseIdx_of_lt l a b h] at h2
    simp only [List.flatten_cons]
    have hx : ((l.getD a [] ++ l.getD b []) ++ ((l.eraseIdx b).eraseIdx a).flatten).Perm
        (l.getD b [] ++ (l.getD a [] ++ ((l.eraseIdx b).eraseIdx a).flatten)) := by
      have hc := List.Perm.append_right (((l.eraseIdx b).eraseIdx a).flatten)
        (@List.perm_append_comm _ (l.getD a []) (l.getD b []))
      simpa [List.append_assoc] using hc
    exact hx.trans ((h2.symm.append_left _).trans h1.symm)
  · have h' : b < a := by omega
    rw [if_neg (by omega)]
    have h1 := flatten_perm_getD_eraseIdx l a ha
    have hb' : b < (l.eraseIdx a).length := by
      rw [List.length_eraseIdx_of_lt ha]; omega
    have h2 := flatten_perm_getD_eraseIdx (l.eraseIdx a) b hb'
    rw [getD_eraseIdx_of_lt l b a h'] at h2
    simp only [List.flatten_cons]
    have hx : ((l.getD a [] ++ l.getD b []) ++ ((l.eraseIdx a).eraseIdx b).flatten) =
        l.getD a [] ++ (l.getD b [] ++ ((l.eraseIdx a).eraseIdx b).flatten) := by
      rw [List.append_assoc]
    rw [hx]
    exact (h2.symm.append_left _).trans h1.symm

/-- Merging two distinct fragments reduces the fragment count by one. -/
lemma length_mergeAt (l : List (List ℕ)) (a b : ℕ)
    (ha : a < l.length) (hb : b < l.length) (hab : a ≠ b) :
    (mergeAt l a b).length = l.length - 1 := by
  unfold mergeAt removeTwo
  rcases Nat.lt_or_ge a b with h | h
  · rw [if_pos h]
    have ha' : a < (l.eraseIdx b).length := by
      rw [List.length_eraseIdx_of_lt hb]; omega
    simp only [List.length_cons, List.length_eraseIdx_of_lt ha',
      List.length_eraseIdx_of_lt hb]
    omega
  · have h' : b < a := by omega
    rw [if_neg (by omega)]
    have hb' : b < (l.eraseIdx a).length := by
      rw [List.length_eraseIdx_of_lt ha]; omega
    simp only [List.length_cons, List.length_eraseIdx_of_lt hb',
      List.length_eraseIdx_of_lt ha]
    omega

/-- Running the greedy loop with fuel one less than the fragment count ends
with a single fragment holding the same nodes. -/
lemma greedy_result (c : ℕ → ℕ → ℤ) :
    ∀ (fuel : ℕ) (frags : List (List ℕ)), frags.length = fuel + 1 →
      (greedy c fuel frags).length = 1 ∧
      (greedy c fuel frags).flatten.Perm frags.flatten := by
  intro fuel
  induction fuel with
  | zero =>
    intro frags h
    exact ⟨h, List.Perm.refl _⟩
  | succ k ih =>
    intro frags h
    obtain ⟨p, hp⟩ := chooseMerge_isSome c frags (by omega)
    obtain ⟨a, b⟩ := p
    obtain ⟨ha, hb, hab⟩ := chooseMerge_bounds c frags a b hp
    have hlen : (mergeAt frags a b).length = k + 1 := by
      rw [length_mergeAt frags a b ha hb hab]; omega
    obtain ⟨h1, h2⟩ := ih (mergeAt frags a b) hlen
    rw [greedy, hp]
    exact ⟨h1, h2.trans (flatten_perm_mergeAt frags a b ha hb hab)⟩

/-- Flattening singleton lists recovers the original list. -/
lemma flatten_map_singleton (l : List ℕ) : (l.map fun i => [i]).flatten = l := by
  induction l with
  | nil => rfl
  | cons x xs ih => simp [List.flatten_cons, ih]

/-- The initial fragments hold exactly the nodes `0, …, n-1`. -/
lemma flatten_initFrags (n : ℕ) : (initFrags n).flatten = List.range n :=
  flatten_map_singleton (List.range n)

/-- Rotation is a permutation. -/
lemma rotateToDepot_perm (p : List ℕ) : (rotateToDepot p).Perm p := by
  unfold rotateToDepot
  exact List.perm_append_comm.trans (List.Perm.of_eq (List.take_append_drop _ _))

/-- If the depot occurs in the path, rotation brings it to the front. -/
lemma rotateToDepot_head (p : List ℕ) (hp : 0 ∈ p) :
    (rotateToDepot p).head? = some 0 := by
  unfold rotateToDepot
  have hlt : p.indexOf 0 < p.length := List.indexOf_lt_length.mpr hp
  rw [List.drop_eq_getElem_cons hlt]
  simp [List.getElem_indexOf hlt]

/-- Soundness of the optimizer: every returned tour is a complete valid tour —
length `n + 1`, depot first and last, interior a permutation of `1, …, n-1`. -/
lemma optimize_route_sound (dm : List (List ℚ)) (t : List ℕ)
    (h : optimize_route dm = some t) :
    t.length = dm.length + 1 ∧ t.head? = some 0 ∧ t.getLast? = some 0 ∧
    t.tail.dropLast.Perm (List.range' 1 (dm.length - 1)) := by
  unfold optimize_route at h
  by_cases hw : dm.length = 0 ∨ isSquare dm = false
  · rw [if_pos hw] at h; cases h
  · rw [if_neg hw] at h
    have hn : 1 ≤ dm.length := by
      rcases Nat.eq_zero_or_pos dm.length with h0 | h0
      · exact absurd (Or.inl h0) hw
      · exact h0
    have hfr := greedy_result (distance_callback dm) (dm.length - 1)
      (initFrags dm.length) (by simp [initFrags]; omega)
    obtain ⟨hlen1, hperm⟩ := hfr
    cases hg : greedy (distance_callback dm) (dm.length - 1) (initFrags dm.length) with
    | nil => rw [hg] at hlen1; simp at hlen1
    | cons p rest =>
      rw [hg] at hlen1 hperm
      have hrest : rest = [] := by
        cases rest with
        | nil => rfl
        | cons q qs => simp at hlen1
      subst hrest
      rw [hg] at h
      simp only [Option.some.injEq] at h
      subst h
      have hpperm : p.Perm (List.range dm.length) := by
        have := hperm
        rw [flatten_initFrags] at this
        simpa using this
      have hp0 : 0 ∈ p := hpperm.mem_iff.mpr (List.mem_range.mpr (by omega))
      have hrothead := rotateToDepot_head p hp0
      have hrotperm := (rotateToDepot_perm p).trans hpperm
      have hrange : List.range dm.length = 0 :: List.range' 1 (dm.length - 1) := by
        rw [List.range_eq_range']
        have hsn : dm.length = (dm.length - 1) + 1 := by omega
        rw [hsn, List.range'_succ]
        simp
      cases hrot : rotateToDepot p with
      | nil => rw [hrot] at hrothead; cases hrothead
      | cons r rs =>
        rw [hrot] at hrothead hrotperm
        have hr0 : r = 0 := by
          simp only [List.head?_cons, Option.some.injEq] at hrothead
          exact hrothead
        subst hr0
        rw [hrange] at hrotperm
        have hint : rs.Perm (List.range' 1 (dm.length - 1)) := hrotperm.cons_inv
        refine ⟨?_, ?_, ?_, ?_⟩
        · have : rs.length = dm.length - 1 := by
            have := hint.length_eq
            simpa using this
          simp [this]
          omega
        · simp
        · exact List.getLast?_concat _
        · simp only [List.cons_append, List.tail_cons]
          rw [List.dropLast_concat]
          exact hint

/-! ## Claims C1, C7, C9 — tour validity, explicit failure, degenerate case -/

/-- C1: for every successful optimization run over `N ≥ 1` stops, the tour
returned has length `N + 1`, its first and last elements equal the depot
index 0, and its interior `N - 1` elements are a permutation of the remaining
node indices `1, …, N-1`, each appearing exactly once. -/
theorem optimize_route_tour_valid (dist : ℚ × ℚ → ℚ × ℚ → ℚ) (stops : List Stop)
    (t : List ℕ) (hn : 1 ≤ stops.length)
    (h : run_optimization dist stops = some t) :
    t.length = stops.length + 1 ∧ t.head? = some 0 ∧ t.getLast? = some 0 ∧
    t.tail.dropLast.Perm (List.range' 1 (stops.length - 1)) := by
  unfold run_optimization at h
  have hs := optimize_route_sound _ _ h
  rwa [create_distance_matrix_length] at hs

set_option maxRecDepth 10000 in
unseal Rat.mul Rat.inv Rat.add Rat.sub in
/-- Witness for C1: a concrete 3-stop run returning the tour `[0, 1, 2, 0]`. -/
theorem optimize_route_tour_valid_witness :
    1 ≤ ([⟨0, 0, 0, 5, 0⟩, ⟨1, 0, 2, 5, 0⟩, ⟨2, 0, 5, 5, 0⟩] : List Stop).length ∧
    run_optimization
        (fun p q => (p.1 - q.1) * (p.1 - q.1) + (p.2 - q.2) * (p.2 - q.2))
        [⟨0, 0, 0, 5, 0⟩, ⟨1, 0, 2, 5, 0⟩, ⟨2, 0, 5, 5, 0⟩] = some [0, 1, 2, 0] ∧
    ([0, 1, 2, 0] : List ℕ).length =
        ([⟨0, 0, 0, 5, 0⟩, ⟨1, 0, 2, 5, 0⟩, ⟨2, 0, 5, 5, 0⟩] : List Stop).length + 1 ∧
    ([0, 1, 2, 0] : List ℕ).head? = some 0 ∧
    ([0, 1, 2, 0] : List ℕ).getLast? = some 0 ∧
    ([0, 1, 2, 0] : List ℕ).tail.dropLast.Perm
      (List.range' 1
        (([⟨0, 0, 0, 5, 0⟩, ⟨1, 0, 2, 5, 0⟩, ⟨2, 0, 5, 5, 0⟩] : List Stop).length - 1)) :=
  ⟨by decide, by decide,
    optimize_route_tour_valid
      (fun p q => (p.1 - q.1) * (p.1 - q.1) + (p.2 - q.2) * (p.2 - q.2))
      [⟨0, 0, 0, 5, 0⟩, ⟨1, 0, 2, 5, 0⟩, ⟨2, 0, 5, 5, 0⟩]
      [0, 1, 2, 0] (by decide) (by decide)⟩

/-- C7: the optimizer never crashes and never returns a partial tour — on any
input matrix the outcome is either the explicit "no solution" signal `none`
(in particular on malformed input, where the heuristic cannot complete a
Hamiltonian cycle) or a complete valid closed tour. -/
theorem optimize_route_no_partial (dm : List (List ℚ)) :
    optimize_route dm = none ∨
    ∃ t, optimize_route dm = some t ∧ t.length = dm.length + 1 ∧
      t.head? = some 0 ∧ t.getLast? = some 0 ∧
      t.tail.dropLast.Perm (List.range' 1 (dm.length - 1)) := by
  cases h : optimize_route dm with
  | none => exact Or.inl rfl
  | some t => exact Or.inr ⟨t, rfl, optimize_route_sound dm t h⟩

/-- C9: in the degenerate case `N = 1`, `create_distance_matrix` returns the
1×1 matrix `[[0]]` (the distance collaborator having zero self-distance) and
the optimizer returns the tour `[0, 0]` with total distance 0. -/
theorem degenerate_single_stop (dist : ℚ × ℚ → ℚ × ℚ → ℚ) (s : Stop)
    (h0 : dist (stopCoord s) (stopCoord s) = 0) :
    create_distance_matrix dist [s] = [[0]] ∧
    run_optimization dist [s] = some [0, 0] ∧
    tourCost (distance_callback (create_distance_matrix dist [s])) [0, 0] = 0 := by
  have hm : create_distance_matrix dist [s] = [[0]] := by
    unfold create_distance_matrix
    simp [List.range_succ, h0]
  refine ⟨hm, ?_, ?_⟩
  · unfold run_optimization
    rw [hm]
    decide
  · rw [hm]
    simp only [tourCost, distance_callback, matrixGet, pyInt]
    norm_num

/-- Witness for C9 at a concrete distance function and stop. -/
theorem degenerate_single_stop_witness :
    (fun p q => (p.1 - q.1) * (p.1 - q.1) + (p.2 - q.2) * (p.2 - q.2) : ℚ × ℚ → ℚ × ℚ → ℚ)
        (stopCoord ⟨0, 3, 7, 5, 0⟩) (stopCoord ⟨0, 3, 7, 5, 0⟩) = 0 ∧
    create_distance_matrix
        (fun p q => (p.1 - q.1) * (p.1 - q.1) + (p.2 - q.2) * (p.2 - q.2))
        [⟨0, 3, 7, 5, 0⟩] = [[0]] ∧
    run_optimization
        (fun p q => (p.1 - q.1) * (p.1 - q.1) + (p.2 - q.2) * (p.2 - q.2))
        [⟨0, 3, 7, 5, 0⟩] = some [0, 0] ∧
    tourCost (distance_callback (create_distance_matrix
        (fun p q => (p.1 - q.1) * (p.1 - q.1) + (p.2 - q.2) * (p.2 - q.2))
        [⟨0, 3, 7, 5, 0⟩])) [0, 0] = 0 :=
  ⟨by norm_num [stopCoord],
    degenerate_single_stop _ _ (by norm_num [stopCoord])⟩
